import Mathlib

/-!
Verification of the filter-primitive reference-graph core of
`src/ui/dialog/filter-effects-dialog.cpp` (Inkscape filter-effects dialog).

The shallow embedding below translates the graph-model parts of that file:
* `input_count` (lines 71–85),
* `find_result` / `find_index` (the resolution scan, lines 1540–1598),
* the connector-drawing defaults of `draw_connection` (lines 1463–1513),
* `check_single_connection` / `sanitize_connections` (lines 1771–1811),
* the commit logic of `on_button_release_event` (lines 1665–1768).

Primitive nodes live in an ordered list; a node's position is its index.
Raw attribute values are integers as parsed by the document layer:
`image_in` / `in2` / `image_out` hold the parsed reference number, where a
negative number below `-1` encodes a standard source and `-1` stands for an
absent/unspecified attribute.
-/

namespace FilterGraph

/-- The closed set of filter-primitive kinds distinguished by the dialog code
(`SP_IS_FEBLEND`, `SP_IS_FECOMPOSITE`, `SP_IS_FEDISPLACEMENTMAP`,
`SP_IS_FEMERGE` tests; every other kind is treated uniformly).  A Merge node
carries the raw `in` value of each of its `feMergeNode` children. -/
inductive PrimKind where
  | blend
  | composite
  | displacementMap
  | merge (subInputs : List Int)
  | colorMatrix
  | componentTransfer
  | convolveMatrix
  | flood
  | gaussianBlur
  | image
  | lighting
  | morphology
  | offset
  | tile
  | turbulence
deriving DecidableEq

/-- Kinds with a second input attribute `in2`
(`SP_IS_FEBLEND(prim) || SP_IS_FECOMPOSITE(prim) || SP_IS_FEDISPLACEMENTMAP(prim)`). -/
def isTwoInput : PrimKind → Bool
  | .blend => true
  | .composite => true
  | .displacementMap => true
  | _ => false

def isMergeKind : PrimKind → Bool
  | .merge _ => true
  | _ => false

/-- The `feMergeNode` children's raw `in` values; `[]` for non-Merge kinds. -/
def mergeSubs : PrimKind → List Int
  | .merge subs => subs
  | _ => []

/-- One filter primitive (`SPFilterPrimitive`) as the dialog code reads it:
`image_in` is the parsed `in` attribute, `in2` the parsed `in2` attribute of
the two-input kinds, `image_out` the parsed `result` attribute.  `-1` stands
for an absent attribute. -/
structure Prim where
  kind : PrimKind
  image_in : Int
  in2 : Int
  image_out : Int
deriving DecidableEq

/-- `input_count` (filter-effects-dialog.cpp lines 71–85): number of input
connectors shown for a primitive.  For `feMerge` the C++ loop starts its
counter at 1 and increments once per child, so the result is the number of
`feMergeNode` children plus one (the trailing "add" connector). -/
def input_count : Option Prim → Nat
  | none => 0
  | some p =>
    match p.kind with
    | .blend => 2
    | .composite => 2
    | .displacementMap => 2
    | .merge subs => subs.length + 1
    | _ => 1

/-- `row_height / input_count`: the per-slot hit-region height computed in
`do_connection_node` (line 1527, `rct.get_height() / icnt`). -/
def slot_height (rowHeight : Nat) (p : Prim) : Nat :=
  rowHeight / input_count (some p)

/-! ## The reference codec (§4.1 of the spec)

The integer branching is exactly that of `find_result`
(lines 1576–1589: `image >= 0` names a result, `image < -1` is a standard
source decoded as `-(image + 2)`, and the remaining value `-1` resolves to
nothing).  Modelled from the spec: the absent-attribute case (`none` below)
and the inverse `encode` live in the attribute-parsing layer
(`sp-filter-primitive`), which is not part of this repository snapshot;
§4.1 specifies absent ↦ `Unspecified` and `encode` as the inverse mapping
with `Unspecified` ↦ absent. -/

inductive InputReference where
  | Unspecified
  | StandardSource (idx : Nat)
  | NamedResult (id : Nat)
deriving DecidableEq

def decode : Option Int → InputReference
  | none => .Unspecified
  | some raw =>
    if 0 ≤ raw then .NamedResult raw.toNat
    else if raw < -1 then .StandardSource (-(raw + 2)).toNat
    else .Unspecified

def encode : InputReference → Option Int
  | .Unspecified => none
  | .StandardSource idx => some (-((idx : Int) + 2))
  | .NamedResult id => some (id : Int)

/-- The legal raw domain of the codec: absent, non-negative, or below `-1`
(`-1` is reserved). -/
def legalRaw : Option Int → Prop
  | none => True
  | some raw => 0 ≤ raw ∨ raw < -1

instance : DecidablePred legalRaw := fun raw =>
  match raw with
  | none => inferInstanceAs (Decidable True)
  | some _ => inferInstanceAs (Decidable (_ ∨ _))

/-! ## Resolution (`find_result`, lines 1540–1590) -/

/-- The declared output of the node at position `j` (`image_out` of row `j`). -/
def out_at (g : List Prim) (j : Nat) : Option Int :=
  (g.get? j).map Prim.image_out

/-- The scan of `find_result` lines 1576–1582: walk the rows strictly before
position `n` from the first row onward, remembering the *last* row whose
`image_out` equals `image`.  (The last match over `0..n-1` is row `n-1` when
it matches, and otherwise the last match over `0..n-2`.) -/
def scan_last (g : List Prim) : Nat → Int → Option Nat
  | 0, _ => none
  | n + 1, image =>
    if out_at g n = some image then some n else scan_last g n image

/-- The raw reference value `find_result` reads for `(node n, slot)`:
for `feMerge`, the `slot`-th `feMergeNode` child's `in` (lines 1547–1557,
counter `c` starting at 0; out-of-range ⇒ not found); otherwise slot 0 is
`image_in` (the `SP_ATTR_IN` case), slot 1 is `in2` for the two-input kinds
(the `SP_ATTR_IN2` case, lines 1562–1570), and anything else is not found. -/
def getImage (g : List Prim) (n : Nat) (slot : Nat) : Option Int :=
  match g.get? n with
  | none => none
  | some p =>
    match p.kind with
    | .merge subs => subs.get? slot
    | _ =>
      if slot = 0 then some p.image_in
      else if slot = 1 then
        (if isTwoInput p.kind then some p.in2 else none)
      else none

/-- Result of `find_result`: it returns either an earlier row's iterator
(`found`), the `start` iterator itself with `src_id` set — signalling a
standard source (`standardSelf`) — or the end iterator (`notFound`). -/
inductive FindRes where
  | found (i : Nat)
  | standardSelf (src : Int)
  | notFound
deriving DecidableEq

/-- The branching of `find_result` on the raw reference value it read
(lines 1576–1589): `image >= 0` scans for the naming row, `image < -1`
returns `start` with `src_id = -(image + 2)`, anything else (that is, `-1`)
returns the end iterator. -/
def find_result_aux (g : List Prim) (n : Nat) : Option Int → FindRes
  | none => .notFound
  | some image =>
    if 0 ≤ image then
      match scan_last g n image with
      | some j => .found j
      | none => .notFound
    else if image < -1 then .standardSelf (-(image + 2))
    else .notFound

/-- `find_result` (lines 1540–1590). -/
def find_result (g : List Prim) (n : Nat) (slot : Nat) : FindRes :=
  find_result_aux g n (getImage g n slot)

/-- Is the node at position `n` an `feMerge`? (`SP_IS_FEMERGE` on the row's
primitive, as `draw_connection` line 1474 tests.) -/
def isMergeAt (g : List Prim) (n : Nat) : Bool :=
  match g.get? n with
  | none => false
  | some p => isMergeKind p.kind

/-- The spec-level resolution answer (§4.2 `ResolvedSource`). -/
inductive ResolvedSource where
  | Producer (i : Nat)
  | Standard (idx : Int)
  | ImplicitPrevious (i : Option Nat)
  | Unresolved
deriving DecidableEq

/-- `resolve(node, slot)`: `find_result` combined with the defaulting rules of
`draw_connection` (lines 1463–1513): a standard-source return draws to that
source; a found row is the producer; no result on a Merge sub-node draws
nothing (`Unresolved`); no result on an ordinary node defaults to the
implicitly previous row (`use_default`), which at row 0 is the base standard
source (`ImplicitPrevious none`, drawn to source 0) and otherwise the row
immediately before (`res = input; --res`). -/
def resolve_aux (g : List Prim) (n : Nat) : FindRes → ResolvedSource
  | .standardSelf src => .Standard src
  | .found i => .Producer i
  | .notFound =>
    if isMergeAt g n then .Unresolved
    else if n = 0 then .ImplicitPrevious none
    else .ImplicitPrevious (some (n - 1))

def resolve (g : List Prim) (n : Nat) (slot : Nat) : ResolvedSource :=
  resolve_aux g n (find_result g n slot)

/-- The graphics context a connection is drawn with. -/
inductive Style where
  | light
  | dark
deriving DecidableEq

/-- Which GC `draw_connection` actually draws the connection of
`(node n, slot)` with, or `none` when nothing is drawn (lines 1463–1513).
A standard-source connection uses `darkgc`; the implicit default of the
first row uses `lightgc` (line 1482); the L-shaped branch — both for a found
producer and for the implicit default to the previous row — draws all three
segments with `get_style()->get_black_gc()` (lines 1508–1510; the `gc`
selected at line 1489 is not passed to those calls); an unresolved Merge
sub-node draws nothing. -/
def draw_connection_style_aux (g : List Prim) (n : Nat) : FindRes → Option Style
  | .standardSelf _ => some .dark
  | .found _ => some .dark
  | .notFound =>
    if isMergeAt g n then none
    else if n = 0 then some .light
    else some .dark

def draw_connection_style (g : List Prim) (n : Nat) (slot : Nat) : Option Style :=
  draw_connection_style_aux g n (find_result g n slot)

/-! ## The reorder sanitizer (`check_single_connection` and
`sanitize_connections`, lines 1771–1811) -/

/-- Lines 1775–1776: `if(prim->image_in == result) setAttribute("in", 0)`;
clearing makes the attribute absent, i.e. the parsed value becomes `-1`. -/
def clear_in (p : Prim) (result : Int) : Prim :=
  if p.image_in = result then { p with image_in := -1 } else p

/-- Lines 1778–1789: the `SP_IS_FEBLEND` / `SP_IS_FECOMPOSITE` /
`SP_IS_FEDISPLACEMENTMAP` chain, each clearing its own `in2` field when it
equals `result`. -/
def clear_in2 (p : Prim) (result : Int) : Prim :=
  if isTwoInput p.kind then
    (if p.in2 = result then { p with in2 := -1 } else p)
  else p

/-- `check_single_connection(prim, result)` (lines 1771–1791): when `result`
is non-negative, clear `prim`'s `in` attribute if it equals `result`, and —
for the three two-input kinds — clear `in2` if it equals `result`.  Merge
sub-node slots are not examined. -/
def check_single_connection (p : Prim) (result : Int) : Prim :=
  if 0 ≤ result then clear_in2 (clear_in p result) result else p

/-- The single pass of `sanitize_connections`: rows before index `m` are
checked against the moved row's `image_out`, the row at `m` is replaced by
`moved'` (the moved primitive after being checked against every later row's
`image_out`), and rows after `m` are left as they are.  `i` is the index of
the first element of the remaining list. -/
def sanitize_map (movedOut : Int) (moved' : Prim) (m : Nat) : Nat → List Prim → List Prim
  | _, [] => []
  | i, p :: ps =>
    (if i < m then check_single_connection p movedOut
     else if i = m then moved'
     else p) :: sanitize_map movedOut moved' m (i + 1) ps

/-- The moved primitive after the `after` half of the walk: checked, in row
order, against the `image_out` of every row past index `m`. -/
def moved_after (g : List Prim) (m : Nat) (movedp : Prim) : Prim :=
  ((g.drop (m + 1)).map Prim.image_out).foldl check_single_connection movedp

def sanitize_connections_aux (g : List Prim) (m : Nat) : Option Prim → List Prim
  | none => g
  | some movedp => sanitize_map movedp.image_out (moved_after g m movedp) m 0 g

/-- `sanitize_connections(prim_iter)` (lines 1794–1811) with the moved row
given by its index `m`: one walk over the rows; while `before` the moved row,
`check_single_connection(cur_prim, prim->image_out)`; after it,
`check_single_connection(prim, cur_prim->image_out)` accumulating on the
moved primitive (the row order gives the fold order over the later rows'
`image_out` values). -/
def sanitize_connections (g : List Prim) (m : Nat) : List Prim :=
  sanitize_connections_aux g m (g.get? m)

/-! ## The drag-commit logic (`on_button_release_event`, lines 1665–1768) -/

/-- Where the pointer is released: over the standard-source label columns
(`cx > sources_x`, with the source index already clamped to the enumeration),
over a node's row left of the label columns, or over no row at all
(`get_path_at_pos` fails — no mutation). -/
inductive DropTarget where
  | standardRegion (src : Nat)
  | row (t : Nat)
  | outside
deriving DecidableEq

/-- The row-release branch (lines 1695–1713): walk the rows strictly before
the origin (selected) row; only if the released-over row `t` is among them is
a connection value produced — the target's declared `result` if present, and
otherwise a fresh id (the filter's next image number) that is first persisted
as the target's `result`.  Returns the value for the `in` attribute and the
possibly updated graph.  Modelled from the spec: the fresh id itself
(`SPFilter::_image_number_next`, outside this snapshot) is passed in as
`fresh`; §4.4 requires only a deterministic fresh id, persisted on the
target before use. -/
def resolve_drop_row_aux (g : List Prim) (t : Nat) (fresh : Int) :
    Option Prim → Option Int × List Prim
  | none => (none, g)
  | some tp =>
    if 0 ≤ tp.image_out then (some tp.image_out, g)
    else (some fresh, g.set t { tp with image_out := fresh })

def resolve_drop_row (g : List Prim) (o t : Nat) (fresh : Int) :
    Option Int × List Prim :=
  if t < o then resolve_drop_row_aux g t fresh (g.get? t)
  else (none, g)

/-- The `feMerge` branch of the commit (lines 1715–1742), walking the
`feMergeNode` children with counter `c` (starting at 1) against the dragged
slot number `d`: at the matching child, a null value deletes the child
(`sp_repr_unparent`) and a non-null value updates its `in`; if no child
matched and `d` equals the counter after the loop (one past the last child,
the trailing "add" connector), a non-null value appends a new child with
that `in`. -/
def merge_commit_go (d : Nat) (in_val : Option Int) : Nat → List Int → List Int
  | c, [] =>
    if c = d then
      (match in_val with
       | some v => [v]
       | none => [])
    else []
  | c, s :: rest =>
    if c = d then
      (match in_val with
       | none => rest
       | some v => v :: rest)
    else s :: merge_commit_go d in_val (c + 1) rest

/-- The `feMerge` commit on the sub-node list, slot `d` being the 1-based
`_in_drag` value. -/
def merge_commit (subs : List Int) (d : Nat) (in_val : Option Int) : List Int :=
  merge_commit_go d in_val 1 subs

/-- Writing the committed value into the origin primitive's dragged slot
(`_in_drag = d`, 1-based): the `feMerge` branch edits the sub-node list;
otherwise `_in_drag == 1` sets `in` and `_in_drag == 2` sets `in2`
(lines 1744–1749), a null value clearing the attribute (parsed as `-1`). -/
def set_input_slot (p : Prim) (d : Nat) (in_val : Option Int) : Prim :=
  match p.kind with
  | .merge subs => { p with kind := .merge (merge_commit subs d in_val) }
  | _ =>
    if d = 1 then { p with image_in := in_val.getD (-1) }
    else if d = 2 then { p with in2 := in_val.getD (-1) }
    else p

/-- `on_button_release_event` during a drag of slot `d` of the origin
(selected) row `o` (lines 1671–1756): no row under the pointer means no
mutation; a release over the standard-source labels commits the encoded
standard source `-(src+2)` (the attribute value written is the source's key,
which parses back to that raw value); a release over row `t` commits the
value produced by `resolve_drop_row`. -/
def on_button_release_aux (g : List Prim) (o : Nat) (d : Nat)
    (tgt : DropTarget) (fresh : Int) : Option Prim → List Prim
  | none => g
  | some op =>
    match tgt with
    | .outside => g
    | .standardRegion src =>
      g.set o (set_input_slot op d (some (-((src : Int) + 2))))
    | .row t =>
      let r := resolve_drop_row g o t fresh
      r.2.set o (set_input_slot op d r.1)

def on_button_release_event (g : List Prim) (o : Nat) (d : Nat)
    (tgt : DropTarget) (fresh : Int) : List Prim :=
  on_button_release_aux g o d tgt fresh (g.get? o)

/-! ## Properties of the resolution scan -/

lemma scan_last_eq_some (g : List Prim) :
    ∀ (n : Nat) (image : Int) (j : Nat),
      scan_last g n image = some j →
      j < n ∧ out_at g j = some image ∧
        ∀ k, j < k → k < n → out_at g k ≠ some image := by
  intro n
  induction n with
  | zero => intro image j h; simp [scan_last] at h
  | succ n ih =>
    intro image j h
    unfold scan_last at h
    by_cases hm : out_at g n = some image
    · rw [if_pos hm] at h
      injection h with h
      subst h
      exact ⟨Nat.lt_succ_self n, hm, fun k hk1 hk2 => absurd hk2 (by omega)⟩
    · rw [if_neg hm] at h
      obtain ⟨h1, h2, h3⟩ := ih image j h
      refine ⟨Nat.lt_succ_of_lt h1, h2, ?_⟩
      intro k hk1 hk2
      rcases Nat.lt_succ_iff_lt_or_eq.mp hk2 with h' | h'
      · exact h3 k hk1 h'
      · subst h'; exact hm

lemma scan_last_eq_none (g : List Prim) :
    ∀ (n : Nat) (image : Int),
      (∀ j, j < n → out_at g j ≠ some image) → scan_last g n image = none := by
  intro n
  induction n with
  | zero => intro image _; rfl
  | succ n ih =>
    intro image h
    unfold scan_last
    rw [if_neg (h n (Nat.lt_succ_self n))]
    exact ih image fun j hj => h j (Nat.lt_succ_of_lt hj)

/-- C1: for a slot whose reference decodes to `NamedResult(id)` (raw value
`id ≥ 0`), resolution scans only the rows strictly before the current row,
in position order, and returns the last (closest preceding) row whose
declared `image_out` equals `id`; if no strictly earlier row declares `id`,
it returns the end iterator (`Unresolved`). -/
theorem named_result_resolution (g : List Prim) (n slot : Nat) (id : Int)
    (himg : getImage g n slot = some id) (h0 : 0 ≤ id) :
    (∀ j, find_result g n slot = FindRes.found j →
      j < n ∧ out_at g j = some id ∧
        ∀ k, j < k → k < n → out_at g k ≠ some id)
  ∧ ((∀ j, j < n → out_at g j ≠ some id) →
      find_result g n slot = FindRes.notFound) := by
  have hfr : find_result g n slot
      = (match scan_last g n id with
         | some j => FindRes.found j
         | none => FindRes.notFound) := by
    unfold find_result
    rw [himg]
    simp only [find_result_aux]
    rw [if_pos h0]
  constructor
  · intro j hj
    rw [hfr] at hj
    cases hs : scan_last g n id with
    | none => rw [hs] at hj; cases hj
    | some j' =>
      rw [hs] at hj
      injection hj with hj
      subst hj
      exact scan_last_eq_some g n id j' hs
  · intro hnone
    rw [hfr, scan_last_eq_none g n id hnone]

/-- The shadowing scenario for C1: rows 0 and 2 both declare output `5`; a
row at position 3 whose slot holds `NamedResult(5)` resolves to row 2. -/
def gS : List Prim :=
  [⟨.gaussianBlur, -1, -1, 5⟩, ⟨.offset, -1, -1, 0⟩,
   ⟨.flood, -1, -1, 5⟩, ⟨.morphology, 5, -1, -1⟩]

/-- Witness for C1 at the shadowing scenario: resolution at row 3 finds
row 2, the closest preceding declaration of output `5`, not row 0. -/
theorem named_result_resolution_witness :
    find_result gS 3 0 = FindRes.found 2 ∧ 2 < 3 ∧ out_at gS 2 = some 5 :=
  ⟨by decide,
   ((named_result_resolution gS 3 0 5 (by decide) (by decide)).1 2 (by decide)).1,
   ((named_result_resolution gS 3 0 5 (by decide) (by decide)).1 2 (by decide)).2.1⟩

lemma find_result_found_lt (g : List Prim) (n slot j : Nat)
    (h : find_result g n slot = FindRes.found j) : j < n := by
  unfold find_result at h
  cases hg : getImage g n slot with
  | none => rw [hg] at h; cases h
  | some image =>
    rw [hg] at h
    simp only [find_result_aux] at h
    by_cases h0 : (0 : Int) ≤ image
    · rw [if_pos h0] at h
      cases hs : scan_last g n image with
      | none => rw [hs] at h; cases h
      | some j' =>
        rw [hs] at h
        injection h with h
        subst h
        exact (scan_last_eq_some g n image j' hs).1
    · rw [if_neg h0] at h
      by_cases h1 : image < -1
      · rw [if_pos h1] at h; cases h
      · rw [if_neg h1] at h; cases h

/-- C6: `resolve` never answers with a row at a position at or past the
resolving row's own position — a `Producer` answer always names a strictly
earlier row, and so does an implicit-previous answer. -/
theorem resolve_no_forward (g : List Prim) (n slot : Nat) :
    (∀ i, resolve g n slot = ResolvedSource.Producer i → i < n)
  ∧ (∀ j, resolve g n slot = ResolvedSource.ImplicitPrevious (some j) → j < n) := by
  constructor
  · intro i hi
    unfold resolve at hi
    cases hfr : find_result g n slot with
    | found k =>
      rw [hfr] at hi
      simp only [resolve_aux] at hi
      injection hi with hi
      subst hi
      exact find_result_found_lt g n slot k hfr
    | standardSelf src => rw [hfr] at hi; cases hi
    | notFound =>
      rw [hfr] at hi
      simp only [resolve_aux] at hi
      by_cases hm : isMergeAt g n
      · rw [if_pos hm] at hi; cases hi
      · rw [if_neg hm] at hi
        by_cases hn : n = 0
        · rw [if_pos hn] at hi; cases hi
        · rw [if_neg hn] at hi; cases hi
  · intro j hj
    unfold resolve at hj
    cases hfr : find_result g n slot with
    | found k => rw [hfr] at hj; cases hj
    | standardSelf src => rw [hfr] at hj; cases hj
    | notFound =>
      rw [hfr] at hj
      simp only [resolve_aux] at hj
      by_cases hm : isMergeAt g n
      · rw [if_pos hm] at hj; cases hj
      · rw [if_neg hm] at hj
        by_cases hn : n = 0
        · rw [if_pos hn] at hj; cases hj
        · rw [if_neg hn] at hj
          injection hj with hj
          injection hj with hj
          omega

/-- Witness for C6: in the shadowing graph, row 3's slot resolves to the
producer at position 2, which is strictly before position 3. -/
theorem resolve_no_forward_witness :
    resolve gS 3 0 = ResolvedSource.Producer 2 ∧ 2 < 3 :=
  ⟨by decide, (resolve_no_forward gS 3 0).1 2 (by decide)⟩

/-! ## Unspecified slots: the implicit default and its drawing style -/

/-- A two-row graph whose second row has an Unspecified first slot and a
third row with an explicit reference to row 0's output `4`. -/
def gC3 : List Prim :=
  [⟨.gaussianBlur, -1, -1, 4⟩, ⟨.offset, -1, -1, -1⟩, ⟨.morphology, 4, -1, -1⟩]

/-- Counterexample to C3 as stated: row 1's Unspecified first slot resolves
implicitly to row 0, yet `draw_connection` draws that implicit connection
with the same dark (black) graphics context it uses for row 2's explicit
connection — not a lighter style.  (The light context chosen at line 1489 is
never passed to the L-shaped `draw_line` calls at lines 1508–1510.) -/
theorem implicit_style_counterexample :
    resolve gC3 1 0 = ResolvedSource.ImplicitPrevious (some 0)
  ∧ resolve gC3 2 0 = ResolvedSource.Producer 0
  ∧ draw_connection_style gC3 1 0 = some Style.dark
  ∧ draw_connection_style gC3 2 0 = some Style.dark := by decide

/-- C3 as amended: for a slot whose raw reference is `-1` (Unspecified), a
Merge sub-node resolves to `Unresolved` and draws no connector; an ordinary
row's slot resolves to the implicitly previous row — the base standard
source when the row is at position 0, else the row immediately before — and
the implicit connection is drawn lighter only in the position-0 case (the
straight connection to the base source); the implicit connection to the
preceding row is drawn with the same dark context as an explicit one. -/
theorem unspecified_resolution (g : List Prim) (n slot : Nat)
    (h : getImage g n slot = some (-1)) :
    (isMergeAt g n = true →
       resolve g n slot = ResolvedSource.Unresolved
       ∧ draw_connection_style g n slot = none)
  ∧ (isMergeAt g n = false →
       resolve g n slot
         = (if n = 0 then ResolvedSource.ImplicitPrevious none
            else ResolvedSource.ImplicitPrevious (some (n - 1)))
       ∧ draw_connection_style g n slot
         = (if n = 0 then some Style.light else some Style.dark)) := by
  have hfr : find_result g n slot = FindRes.notFound := by
    unfold find_result
    rw [h]
    simp only [find_result_aux]
    rw [if_neg (by omega), if_neg (by omega)]
  constructor
  · intro hm
    constructor
    · unfold resolve; rw [hfr]; simp only [resolve_aux]; rw [if_pos hm]
    · unfold draw_connection_style; rw [hfr]
      simp only [draw_connection_style_aux]; rw [if_pos hm]
  · intro hm
    constructor
    · unfold resolve; rw [hfr]; simp only [resolve_aux]
      rw [if_neg (by simp [hm])]
    · unfold draw_connection_style; rw [hfr]
      simp only [draw_connection_style_aux]
      rw [if_neg (by simp [hm])]

/-- A single-sub-node Merge with an Unspecified sub-node slot. -/
def gM : List Prim := [⟨.merge [-1], -1, -1, -1⟩]

/-- Two ordinary rows, both with Unspecified first slots. -/
def gI : List Prim := [⟨.gaussianBlur, -1, -1, -1⟩, ⟨.offset, -1, -1, -1⟩]

/-- Witness for C3 (amended): the Merge sub-node slot is `Unresolved` with no
connector; row 1's Unspecified slot is `ImplicitPrevious(row 0)`, drawn dark;
row 0's Unspecified slot is `ImplicitPrevious(none)`, drawn light. -/
theorem unspecified_resolution_witness :
    (resolve gM 0 0 = ResolvedSource.Unresolved
      ∧ draw_connection_style gM 0 0 = none)
  ∧ (resolve gI 1 0
       = (if 1 = 0 then ResolvedSource.ImplicitPrevious none
          else ResolvedSource.ImplicitPrevious (some (1 - 1)))
      ∧ draw_connection_style gI 1 0
       = (if 1 = 0 then some Style.light else some Style.dark))
  ∧ (resolve gI 0 0
       = (if 0 = 0 then ResolvedSource.ImplicitPrevious none
          else ResolvedSource.ImplicitPrevious (some (0 - 1)))
      ∧ draw_connection_style gI 0 0
       = (if 0 = 0 then some Style.light else some Style.dark)) :=
  ⟨(unspecified_resolution gM 0 0 (by decide)).1 (by decide),
   (unspecified_resolution gI 1 0 (by decide)).2 (by decide),
   (unspecified_resolution gI 0 0 (by decide)).2 (by decide)⟩

/-! ## The reference codec -/

/-- C7: the codec is a bijection on its legal domain — absent decodes to
`Unspecified`, `raw ≥ 0` to `NamedResult(raw)`, `raw < -1` to
`StandardSource(-(raw+2))`, the reserved `raw = -1` to `Unspecified`;
`decode ∘ encode` is the identity on references and `encode ∘ decode` the
identity on the legal raw domain `{absent} ∪ {≥ 0} ∪ {< -1}`. -/
theorem codec_spec :
    decode none = InputReference.Unspecified
  ∧ (∀ raw : Int, 0 ≤ raw →
       decode (some raw) = InputReference.NamedResult raw.toNat)
  ∧ (∀ raw : Int, raw < -1 →
       decode (some raw) = InputReference.StandardSource (-(raw + 2)).toNat)
  ∧ decode (some (-1)) = InputReference.Unspecified
  ∧ (∀ r : InputReference, decode (encode r) = r)
  ∧ (∀ raw : Option Int, legalRaw raw → encode (decode raw) = raw) := by
  refine ⟨rfl, ?_, ?_, by decide, ?_, ?_⟩
  · intro raw h
    simp only [decode]
    rw [if_pos h]
  · intro raw h
    simp only [decode]
    rw [if_neg (by omega), if_pos h]
  · intro r
    cases r with
    | Unspecified => rfl
    | StandardSource idx =>
      simp only [encode, decode]
      rw [if_neg (by omega), if_pos (by omega)]
      congr 1
      omega
    | NamedResult id =>
      simp only [encode, decode]
      rw [if_pos (by omega)]
      congr 1
  · intro raw h
    cases raw with
    | none => rfl
    | some k =>
      rcases h with h | h
      · simp only [decode, encode]
        rw [if_pos h]
        simp only [encode]
        congr 1
        omega
      · simp only [decode, encode]
        rw [if_neg (by omega), if_pos h]
        simp only [encode]
        congr 1
        omega

/-- Witness for C7 at concrete raw values and references. -/
theorem codec_spec_witness :
    decode (some 5) = InputReference.NamedResult 5
  ∧ decode (some (-4)) = InputReference.StandardSource 2
  ∧ decode (encode (InputReference.StandardSource 2))
      = InputReference.StandardSource 2
  ∧ encode (decode (some (-4))) = some (-4) :=
  ⟨codec_spec.2.1 5 (by decide),
   codec_spec.2.2.1 (-4) (by decide),
   codec_spec.2.2.2.2.1 (InputReference.StandardSource 2),
   codec_spec.2.2.2.2.2 (some (-4)) (by decide)⟩

/-! ## Input counts -/

/-- Counterexample to C9 as stated: for a Merge node with two sub-nodes,
`input_count` returns 3 — the sub-node count plus one — in every context;
there is no call mode in which it returns the bare sub-node count 2. -/
theorem input_count_merge_counterexample :
    input_count (some ⟨.merge [0, 0], -1, -1, -1⟩) = 3
  ∧ input_count (some ⟨.merge [0, 0], -1, -1, -1⟩) ≠ 2 := by decide

/-- C9 as amended: `input_count` returns 2 for Blend/Composite/
DisplacementMap, the sub-node count plus one for a Merge node (the extra
being the trailing "add" connector) in all cases, 1 for every other kind,
and 0 for a null primitive. -/
theorem input_count_spec :
    input_count none = 0
  ∧ (∀ p : Prim, isTwoInput p.kind = true → input_count (some p) = 2)
  ∧ (∀ p : Prim, ∀ subs : List Int, p.kind = .merge subs →
       input_count (some p) = subs.length + 1)
  ∧ (∀ p : Prim, isTwoInput p.kind = false → isMergeKind p.kind = false →
       input_count (some p) = 1) := by
  refine ⟨rfl, ?_, ?_, ?_⟩
  · rintro ⟨k, a, b, c⟩ h
    cases k <;> simp_all [isTwoInput, input_count]
  · rintro ⟨k, a, b, c⟩ subs h
    cases k <;> simp_all [input_count]
  · rintro ⟨k, a, b, c⟩ h1 h2
    cases k <;> simp_all [isTwoInput, isMergeKind, input_count]

/-- Witness for C9 (amended) at one primitive of each class. -/
theorem input_count_spec_witness :
    input_count (some ⟨.blend, -1, -1, -1⟩) = 2
  ∧ input_count (some ⟨.merge [0, 0], -1, -1, -1⟩) = 2 + 1
  ∧ input_count (some ⟨.gaussianBlur, -1, -1, -1⟩) = 1 :=
  ⟨input_count_spec.2.1 ⟨.blend, -1, -1, -1⟩ (by decide),
   input_count_spec.2.2.1 ⟨.merge [0, 0], -1, -1, -1⟩ [0, 0] rfl,
   input_count_spec.2.2.2 ⟨.gaussianBlur, -1, -1, -1⟩ (by decide) (by decide)⟩

/-- C10: every non-null primitive has at least one input connector — a Merge
yields its sub-node count plus one and every other kind yields 1 or 2 — so
the divisor `input_count` in the per-slot hit-region height
(`rct.get_height() / icnt` in `do_connection_node`, here `slot_height`)
is never zero. -/
theorem input_count_pos (p : Prim) :
    0 < input_count (some p)
  ∧ (isMergeKind p.kind = true →
       input_count (some p) = (mergeSubs p.kind).length + 1)
  ∧ (isMergeKind p.kind = false →
       input_count (some p) = 1 ∨ input_count (some p) = 2) := by
  obtain ⟨k, a, b, c⟩ := p
  cases k <;> simp [isMergeKind, mergeSubs, input_count]

/-- Witness for C10 at a Merge primitive and an ordinary one. -/
theorem input_count_pos_witness :
    0 < input_count (some ⟨.merge [0, 0], -1, -1, -1⟩)
  ∧ input_count (some ⟨.merge [0, 0], -1, -1, -1⟩)
      = (mergeSubs (PrimKind.merge [0, 0])).length + 1
  ∧ (input_count (some ⟨.offset, -1, -1, -1⟩) = 1
      ∨ input_count (some ⟨.offset, -1, -1, -1⟩) = 2) :=
  ⟨(input_count_pos ⟨.merge [0, 0], -1, -1, -1⟩).1,
   (input_count_pos ⟨.merge [0, 0], -1, -1, -1⟩).2.1 rfl,
   (input_count_pos ⟨.offset, -1, -1, -1⟩).2.2 rfl⟩

/-! ## The Merge-slot commit -/

lemma merge_commit_go_remove :
    ∀ (subs : List Int) (c i : Nat), i < subs.length →
      merge_commit_go (c + i) none c subs = subs.eraseIdx i := by
  intro subs
  induction subs with
  | nil => intro c i h; simp at h
  | cons s rest ih =>
    intro c i h
    cases i with
    | zero =>
      unfold merge_commit_go
      rw [if_pos (show c = c + 0 by omega)]
      rfl
    | succ i' =>
      unfold merge_commit_go
      rw [if_neg (by omega)]
      have hc : c + (i' + 1) = (c + 1) + i' := by omega
      rw [hc, ih (c + 1) i' (by simpa using h)]
      rfl

lemma merge_commit_go_set :
    ∀ (subs : List Int) (c i : Nat) (v : Int), i < subs.length →
      merge_commit_go (c + i) (some v) c subs = subs.set i v := by
  intro subs
  induction subs with
  | nil => intro c i v h; simp at h
  | cons s rest ih =>
    intro c i v h
    cases i with
    | zero =>
      unfold merge_commit_go
      rw [if_pos (show c = c + 0 by omega)]
      rfl
    | succ i' =>
      unfold merge_commit_go
      rw [if_neg (by omega)]
      have hc : c + (i' + 1) = (c + 1) + i' := by omega
      rw [hc, ih (c + 1) i' v (by simpa using h)]
      rfl

lemma merge_commit_go_append :
    ∀ (subs : List Int) (c : Nat) (v : Int),
      merge_commit_go (c + subs.length) (some v) c subs = subs ++ [v] := by
  intro subs
  induction subs with
  | nil =>
    intro c v
    unfold merge_commit_go
    rw [if_pos (show c = c + List.length [] by simp)]
    rfl
  | cons s rest ih =>
    intro c v
    unfold merge_commit_go
    rw [if_neg (by simp)]
    have hc : c + (s :: rest).length = (c + 1) + rest.length := by
      simp [List.length_cons]; omega
    rw [hc, ih (c + 1) v]
    rfl

/-- C5: committing on a Merge primitive's sub-node slot `d` (1-based):
an Unspecified target on an existing sub-node removes that sub-node,
shrinking the merge's input count by one; a non-Unspecified target on the
trailing "add" slot appends a new sub-node carrying the target's reference,
growing the input count by one; a non-Unspecified target on an existing
sub-node updates that sub-node's reference in place. -/
theorem merge_slot_commit (p : Prim) (subs : List Int) (d : Nat)
    (hk : p.kind = .merge subs) :
    (1 ≤ d → d ≤ subs.length →
       (set_input_slot p d none).kind = .merge (subs.eraseIdx (d - 1))
       ∧ input_count (some (set_input_slot p d none)) + 1
           = input_count (some p))
  ∧ (∀ v : Int, 1 ≤ d → d ≤ subs.length →
       (set_input_slot p d (some v)).kind = .merge (subs.set (d - 1) v))
  ∧ (∀ v : Int, d = subs.length + 1 →
       (set_input_slot p d (some v)).kind = .merge (subs ++ [v])
       ∧ input_count (some (set_input_slot p d (some v)))
           = input_count (some p) + 1) := by
  obtain ⟨k, a, b, c⟩ := p
  cases hk
  have hrm : ∀ (iv : Option Int),
      set_input_slot ⟨.merge subs, a, b, c⟩ d iv
        = ⟨.merge (merge_commit subs d iv), a, b, c⟩ := fun _ => rfl
  refine ⟨?_, ?_, ?_⟩
  · intro h1 h2
    have he : merge_commit subs d none = subs.eraseIdx (d - 1) := by
      have h' := merge_commit_go_remove subs 1 (d - 1) (by omega)
      rw [show 1 + (d - 1) = d by omega] at h'
      exact h'
    constructor
    · rw [hrm, he]
    · rw [hrm, he]
      simp only [input_count]
      rw [List.length_eraseIdx, if_pos (by omega)]
      omega
  · intro v h1 h2
    have he : merge_commit subs d (some v) = subs.set (d - 1) v := by
      have h' := merge_commit_go_set subs 1 (d - 1) v (by omega)
      rw [show 1 + (d - 1) = d by omega] at h'
      exact h'
    rw [hrm, he]
  · intro v hd
    have he : merge_commit subs d (some v) = subs ++ [v] := by
      have h' := merge_commit_go_append subs 1 v
      rw [show 1 + subs.length = d by omega] at h'
      exact h'
    constructor
    · rw [hrm, he]
    · rw [hrm, he]
      simp [input_count]

/-- The Merge primitive of the add/remove scenario, with two sub-nodes. -/
def pM : Prim := ⟨.merge [10, 20], -1, -1, -1⟩

/-- The same Merge after a sub-node referencing `StandardSource(0)`
(raw `-2`) was added on the trailing slot. -/
def pM3 : Prim := ⟨.merge [10, 20, -2], -1, -1, -1⟩

/-- Witness for C5 at the add/remove scenario: committing
`StandardSource(0)` (raw `-2`, `encode (StandardSource 0)`) on the trailing
slot of a two-sub-node Merge yields three sub-nodes, the new one carrying
`-2`; then committing Unspecified on the second sub-node's slot removes it,
leaving two. -/
theorem merge_slot_commit_witness :
    ((set_input_slot pM 3 (some (-2))).kind = .merge ([10, 20] ++ [-2])
      ∧ input_count (some (set_input_slot pM 3 (some (-2))))
          = input_count (some pM) + 1)
  ∧ ((set_input_slot pM3 2 none).kind = .merge ([10, 20, -2].eraseIdx 1)
      ∧ input_count (some (set_input_slot pM3 2 none)) + 1
          = input_count (some pM3)) :=
  ⟨(merge_slot_commit pM [10, 20] 3 rfl).2.2 (-2) (by decide),
   (merge_slot_commit pM3 [10, 20, -2] 2 rfl).1 (by decide) (by decide)⟩

/-! ## The row-release commit -/

lemma set_input_slot_nonmerge (p : Prim) (hmk : isMergeKind p.kind = false)
    (v : Option Int) :
    set_input_slot p 1 v = { p with image_in := v.getD (-1) } := by
  obtain ⟨k, a, b, c⟩ := p
  cases k <;> simp_all [isMergeKind, set_input_slot]

/-- The graph of the C4 counterexample: the origin at position 0 carries an
explicit reference `4`; the row at position 1 declares output `9`. -/
def gRel : List Prim := [⟨.gaussianBlur, 4, -1, -1⟩, ⟨.offset, -1, -1, 9⟩]

/-- Counterexample to C4 as stated: dragging the origin row 0's slot and
releasing it over row 1's row (left of the label column) does *not* commit
row 1's declared output `9` — because row 1 does not precede the origin, the
walk at lines 1696–1712 never reaches it, `in_val` stays null, and the
commit clears the origin's slot to Unspecified (`-1`). -/
theorem release_forward_counterexample :
    on_button_release_event gRel 0 1 (DropTarget.row 1) 3
      = [⟨.gaussianBlur, -1, -1, -1⟩, ⟨.offset, -1, -1, 9⟩]
  ∧ out_at gRel 1 = some 9 := by decide

/-- C4 as amended: a drag of an ordinary origin's `in` slot released over
another node's row, left of its label column, commits that node's declared
output — allocating and persisting a deterministic fresh id on the target
first when it has none — *provided the target row strictly precedes the
origin row in position order*; releasing over a non-preceding row commits
Unspecified (the origin slot is cleared). -/
theorem release_row_commit (g : List Prim) (o t : Nat) (op tp : Prim)
    (fresh : Int) (ho : g.get? o = some op) (ht : g.get? t = some tp)
    (hmk : isMergeKind op.kind = false) :
    (t < o → 0 ≤ tp.image_out →
       on_button_release_event g o 1 (DropTarget.row t) fresh
         = g.set o { op with image_in := tp.image_out })
  ∧ (t < o → tp.image_out < 0 →
       on_button_release_event g o 1 (DropTarget.row t) fresh
         = (g.set t { tp with image_out := fresh }).set o
             { op with image_in := fresh })
  ∧ (¬ t < o →
       on_button_release_event g o 1 (DropTarget.row t) fresh
         = g.set o { op with image_in := -1 }) := by
  refine ⟨?_, ?_, ?_⟩
  · intro hlt hout
    unfold on_button_release_event
    rw [ho]
    simp only [on_button_release_aux]
    unfold resolve_drop_row
    rw [if_pos hlt, ht]
    simp only [resolve_drop_row_aux]
    rw [if_pos hout]
    simp only []
    rw [set_input_slot_nonmerge op hmk]
    rfl
  · intro hlt hout
    unfold on_button_release_event
    rw [ho]
    simp only [on_button_release_aux]
    unfold resolve_drop_row
    rw [if_pos hlt, ht]
    simp only [resolve_drop_row_aux]
    rw [if_neg (by omega)]
    simp only []
    rw [set_input_slot_nonmerge op hmk]
    rfl
  · intro hlt
    unfold on_button_release_event
    rw [ho]
    simp only [on_button_release_aux]
    unfold resolve_drop_row
    rw [if_neg hlt]
    simp only []
    rw [set_input_slot_nonmerge op hmk]
    rfl

/-- The witness graph for C4 (amended): origin row 1 drags onto row 0,
which has no declared `result`. -/
def gW4 : List Prim := [⟨.flood, -1, -1, -1⟩, ⟨.gaussianBlur, -1, -1, -1⟩]

/-- Witness for C4 (amended): releasing row 1's drag over row 0 — which
precedes the origin and declares no output — first persists the fresh id 42
as row 0's `result` and then sets the origin's `in` to it. -/
theorem release_row_commit_witness :
    on_button_release_event gW4 1 1 (DropTarget.row 0) 42
      = [⟨.flood, -1, -1, 42⟩, ⟨.gaussianBlur, 42, -1, -1⟩] :=
  ((release_row_commit gW4 1 0 ⟨.gaussianBlur, -1, -1, -1⟩
      ⟨.flood, -1, -1, -1⟩ 42 (by decide) (by decide) (by decide)).2.1
    (by decide) (by decide)).trans (by decide)

/-! ## Properties of the sanitizer -/

lemma cs_kind (p : Prim) (r : Int) :
    (check_single_connection p r).kind = p.kind := by
  unfold check_single_connection clear_in clear_in2
  split_ifs <;> rfl

lemma cs_out (p : Prim) (r : Int) :
    (check_single_connection p r).image_out = p.image_out := by
  unfold check_single_connection clear_in clear_in2
  split_ifs <;> rfl

lemma cs_in_cases (p : Prim) (r : Int) :
    (check_single_connection p r).image_in = p.image_in
  ∨ (check_single_connection p r).image_in = -1 := by
  unfold check_single_connection clear_in clear_in2
  split_ifs <;> simp

lemma cs_in2_cases (p : Prim) (r : Int) :
    (check_single_connection p r).in2 = p.in2
  ∨ (check_single_connection p r).in2 = -1 := by
  unfold check_single_connection clear_in clear_in2
  split_ifs <;> simp

lemma cs_in_eq (p : Prim) (r : Int) (h0 : 0 ≤ r) (h : p.image_in = r) :
    (check_single_connection p r).image_in = -1 := by
  unfold check_single_connection clear_in clear_in2
  rw [if_pos h0, if_pos h]
  split_ifs <;> rfl

lemma cs_in_ne (p : Prim) (r : Int) (h : p.image_in ≠ r) :
    (check_single_connection p r).image_in = p.image_in := by
  unfold check_single_connection clear_in clear_in2
  split_ifs <;> simp_all

lemma cs_in2_eq (p : Prim) (r : Int) (h0 : 0 ≤ r)
    (ht : isTwoInput p.kind = true) (h : p.in2 = r) :
    (check_single_connection p r).in2 = -1 := by
  unfold check_single_connection clear_in clear_in2
  rw [if_pos h0]
  split_ifs <;> simp_all

/-- A primitive none of whose sanitized slots still carries `r`. -/
def Untouched (p : Prim) (r : Int) : Prop :=
  p.image_in ≠ r ∧ (isTwoInput p.kind = true → p.in2 ≠ r)

lemma cs_untouched_self (p : Prim) (r : Int) (h0 : 0 ≤ r) :
    Untouched (check_single_connection p r) r := by
  unfold Untouched check_single_connection clear_in clear_in2
  rw [if_pos h0]
  split_ifs <;> simp_all <;> omega

lemma cs_untouched_preserved (p : Prim) (r s : Int) (h0 : 0 ≤ r)
    (hu : Untouched p r) : Untouched (check_single_connection p s) r := by
  obtain ⟨h1, h2⟩ := hu
  constructor
  · rcases cs_in_cases p s with h | h <;> rw [h]
    · exact h1
    · omega
  · rw [cs_kind]
    intro ht
    rcases cs_in2_cases p s with h | h <;> rw [h]
    · exact h2 ht
    · omega

lemma cs_of_untouched (p : Prim) (r : Int) (hu : Untouched p r) :
    check_single_connection p r = p := by
  obtain ⟨h1, h2⟩ := hu
  unfold check_single_connection clear_in clear_in2
  split_ifs <;> simp_all

lemma cs_neg (p : Prim) (r : Int) (h : ¬ 0 ≤ r) :
    check_single_connection p r = p := by
  unfold check_single_connection
  rw [if_neg h]

lemma foldl_cs_kind (outs : List Int) :
    ∀ p : Prim, (outs.foldl check_single_connection p).kind = p.kind := by
  induction outs with
  | nil => intro p; rfl
  | cons r rest ih =>
    intro p
    show (rest.foldl check_single_connection (check_single_connection p r)).kind = _
    rw [ih, cs_kind]

lemma foldl_cs_out (outs : List Int) :
    ∀ p : Prim, (outs.foldl check_single_connection p).image_out = p.image_out := by
  induction outs with
  | nil => intro p; rfl
  | cons r rest ih =>
    intro p
    show (rest.foldl check_single_connection (check_single_connection p r)).image_out = _
    rw [ih, cs_out]

lemma foldl_cs_untouched_preserved (outs : List Int) :
    ∀ (p : Prim) (r : Int), 0 ≤ r → Untouched p r →
      Untouched (outs.foldl check_single_connection p) r := by
  induction outs with
  | nil => intro p r _ hu; exact hu
  | cons s rest ih =>
    intro p r h0 hu
    exact ih _ r h0 (cs_untouched_preserved p r s h0 hu)

lemma foldl_cs_untouched_mem (outs : List Int) :
    ∀ (p : Prim) (r : Int), 0 ≤ r → r ∈ outs →
      Untouched (outs.foldl check_single_connection p) r := by
  induction outs with
  | nil => intro p r _ hr; cases hr
  | cons s rest ih =>
    intro p r h0 hr
    rcases List.mem_cons.mp hr with h | h
    · subst h
      exact foldl_cs_untouched_preserved rest _ r h0 (cs_untouched_self p r h0)
    · exact ih _ r h0 h

lemma foldl_cs_twice (outs : List Int) :
    ∀ p : Prim,
      outs.foldl check_single_connection (outs.foldl check_single_connection p)
        = outs.foldl check_single_connection p := by
  induction outs with
  | nil => intro p; rfl
  | cons r rest ih =>
    intro p
    show rest.foldl check_single_connection
        (check_single_connection (rest.foldl check_single_connection
          (check_single_connection p r)) r) = _
    by_cases h0 : 0 ≤ r
    · rw [cs_of_untouched _ r
        (foldl_cs_untouched_preserved rest _ r h0 (cs_untouched_self p r h0))]
      exact ih (check_single_connection p r)
    · rw [cs_neg _ r h0]
      exact ih (check_single_connection p r)

lemma cs_idem (p : Prim) (r : Int) :
    check_single_connection (check_single_connection p r) r
      = check_single_connection p r := by
  by_cases h0 : 0 ≤ r
  · exact cs_of_untouched _ r (cs_untouched_self p r h0)
  · rw [cs_neg _ r h0, cs_neg _ r h0]

lemma sanitize_map_get? (movedOut : Int) (mv : Prim) (m : Nat) :
    ∀ (g : List Prim) (i k : Nat),
      (sanitize_map movedOut mv m i g).get? k
        = (g.get? k).map (fun p =>
            if i + k < m then check_single_connection p movedOut
            else if i + k = m then mv else p) := by
  intro g
  induction g with
  | nil => intro i k; rfl
  | cons p ps ih =>
    intro i k
    cases k with
    | zero => simp [sanitize_map]
    | succ k' =>
      show (sanitize_map movedOut mv m (i + 1) ps).get? k' = _
      rw [ih (i + 1) k']
      rw [show i + 1 + k' = i + (k' + 1) by omega]
      rfl

lemma sanitize_connections_get? (g : List Prim) (m : Nat) (movedp : Prim)
    (hm : g.get? m = some movedp) (k : Nat) :
    (sanitize_connections g m).get? k
      = (g.get? k).map (fun p =>
          if k < m then check_single_connection p movedp.image_out
          else if k = m then moved_after g m movedp else p) := by
  unfold sanitize_connections
  rw [hm]
  simp only [sanitize_connections_aux]
  rw [sanitize_map_get?]
  simp only [Nat.zero_add]

/-- The graph of the C2 counterexample: a Merge node at position 0 whose
sub-node references output `7`, declared by the moved node at position 1. -/
def gMrg : List Prim := [⟨.merge [7], -1, -1, -1⟩, ⟨.gaussianBlur, -1, -1, 7⟩]

/-- Counterexample to C2 as stated: after moving the declaring node to
position 1, the Merge node positioned before it still references its output
`7` through its sub-node slot — `sanitize_connections` is a no-op on this
graph, because `check_single_connection` only ever clears the `in`/`in2`
attributes of the primitive element itself and never visits `feMergeNode`
children. -/
theorem sanitize_merge_counterexample :
    sanitize_connections gMrg 1 = gMrg
  ∧ gMrg.get? 0 = some ⟨.merge [7], -1, -1, -1⟩
  ∧ out_at gMrg 1 = some 7 := by decide

/-- C2 as amended: after `sanitize_connections(graph, moved)`, every node
now positioned before the moved node whose `in` (or, for the two-input
kinds, `in2`) referenced the moved node's declared output has that slot
cleared to Unspecified (`-1`), an unequal slot being left unchanged; and the
moved node's own `in`/`in2` no longer reference the declared output of any
node now positioned after it.  Clearing applies only to those per-element
attributes: node kinds — including Merge sub-node lists — are untouched. -/
theorem sanitize_clears (g : List Prim) (m : Nat) (movedp : Prim)
    (hm : g.get? m = some movedp) (hout : 0 ≤ movedp.image_out) :
    (∀ i origp newp, i < m → g.get? i = some origp →
       (sanitize_connections g m).get? i = some newp →
         (origp.image_in = movedp.image_out → newp.image_in = -1)
       ∧ (origp.image_in ≠ movedp.image_out → newp.image_in = origp.image_in)
       ∧ (isTwoInput origp.kind = true → origp.in2 = movedp.image_out →
            newp.in2 = -1)
       ∧ newp.kind = origp.kind)
  ∧ (∀ newp, (sanitize_connections g m).get? m = some newp →
       newp.kind = movedp.kind
       ∧ ∀ j oj, m < j → out_at g j = some oj → 0 ≤ oj →
           newp.image_in ≠ oj
           ∧ (isTwoInput movedp.kind = true → newp.in2 ≠ oj)) := by
  constructor
  · intro i origp newp hi hgi hni
    rw [sanitize_connections_get? g m movedp hm i, hgi] at hni
    simp only [Option.map_some, if_pos hi] at hni
    injection hni with hni
    subst hni
    exact ⟨fun h => cs_in_eq origp _ hout h,
           fun h => cs_in_ne origp _ h,
           fun ht h => cs_in2_eq origp _ hout ht h,
           cs_kind origp _⟩
  · intro newp hnm
    rw [sanitize_connections_get? g m movedp hm m, hm] at hnm
    simp only [Option.map_some', lt_self_iff_false, if_false,
      eq_self_iff_true, if_true, Option.some.injEq] at hnm
    subst hnm
    refine ⟨foldl_cs_kind _ movedp, ?_⟩
    intro j oj hj hoj h0
    have hmem : oj ∈ (g.drop (m + 1)).map Prim.image_out := by
      unfold out_at at hoj
      cases hq : g.get? j with
      | none => rw [hq] at hoj; cases hoj
      | some q =>
        rw [hq] at hoj
        simp only [Option.map_some'] at hoj
        injection hoj with hoj
        have hq' : (g.drop (m + 1)).get? (j - (m + 1)) = some q := by
          rw [List.get?_drop]
          rw [show m + 1 + (j - (m + 1)) = j by omega]
          exact hq
        exact hoj ▸ List.mem_map_of_mem Prim.image_out (List.get?_mem hq')
    have hu : Untouched (moved_after g m movedp) oj :=
      foldl_cs_untouched_mem _ movedp oj h0 hmem
    obtain ⟨h1, h2⟩ := hu
    refine ⟨h1, fun ht => h2 ?_⟩
    show isTwoInput (moved_after g m movedp).kind = true
    unfold moved_after
    rw [foldl_cs_kind]
    exact ht

/-- The witness graph for C2 (amended): row 0 (a Blend) references the moved
row 1's declared output `7` through both `in` and `in2`; the moved row 1
references row 2's declared output `3`. -/
def gWS : List Prim :=
  [⟨.blend, 7, 7, -1⟩, ⟨.offset, 3, -1, 7⟩, ⟨.flood, -1, -1, 3⟩]

/-- Witness for C2 (amended): sanitizing around the moved row 1 clears the
Blend's `in` (it referenced the moved row's output `7`) and clears the moved
row's `in` (it referenced the later row 2's output `3`). -/
theorem sanitize_clears_witness :
    (sanitize_connections gWS 1).get? 0 = some ⟨.blend, -1, -1, -1⟩
  ∧ (⟨.blend, -1, -1, -1⟩ : Prim).image_in = -1
  ∧ (sanitize_connections gWS 1).get? 1 = some ⟨.offset, -1, -1, 7⟩
  ∧ (⟨.offset, -1, -1, 7⟩ : Prim).image_in ≠ 3 :=
  ⟨by decide,
   ((sanitize_clears gWS 1 ⟨.offset, 3, -1, 7⟩ (by decide) (by decide)).1
      0 ⟨.blend, 7, 7, -1⟩ ⟨.blend, -1, -1, -1⟩ (by decide) (by decide)
      (by decide)).1 (by decide),
   by decide,
   (((sanitize_clears gWS 1 ⟨.offset, 3, -1, 7⟩ (by decide) (by decide)).2
      ⟨.offset, -1, -1, 7⟩ (by decide)).2 2 3 (by decide) (by decide)
      (by decide)).1⟩

/-- C8: the sanitization pass is idempotent — running
`sanitize_connections` twice around the same moved row produces exactly the
graph of a single run. -/
theorem sanitize_idempotent (g : List Prim) (m : Nat) :
    sanitize_connections (sanitize_connections g m) m
      = sanitize_connections g m := by
  cases hm : g.get? m with
  | none =>
    have h1 : sanitize_connections g m = g := by
      unfold sanitize_connections
      rw [hm]
      rfl
    rw [h1]
    exact h1
  | some movedp =>
    have hget : ∀ k, (sanitize_connections g m).get? k
        = (g.get? k).map (fun p =>
            if k < m then check_single_connection p movedp.image_out
            else if k = m then moved_after g m movedp else p) :=
      sanitize_connections_get? g m movedp hm
    have hg'm : (sanitize_connections g m).get? m
        = some (moved_after g m movedp) := by
      rw [hget m, hm]
      simp only [Option.map_some', lt_self_iff_false, if_false,
        eq_self_iff_true, if_true]
    have hdrop : (sanitize_connections g m).drop (m + 1) = g.drop (m + 1) := by
      apply List.ext_get?
      intro k
      rw [List.get?_drop, List.get?_drop, hget (m + 1 + k)]
      cases hgk : g.get? (m + 1 + k) with
      | none => rfl
      | some q =>
        simp only [Option.map_some']
        rw [if_neg (by omega), if_neg (by omega)]
    have hmv_out : (moved_after g m movedp).image_out = movedp.image_out :=
      foldl_cs_out _ movedp
    have hmv2 : moved_after (sanitize_connections g m) m
        (moved_after g m movedp) = moved_after g m movedp := by
      unfold moved_after
      rw [hdrop]
      exact foldl_cs_twice _ movedp
    have haux : ∀ (h : List Prim) (i : Nat),
        sanitize_connections h i = sanitize_connections_aux h i (h.get? i) :=
      fun _ _ => rfl
    rw [haux (sanitize_connections g m) m, hg'm]
    simp only [sanitize_connections_aux]
    rw [hmv2, hmv_out]
    apply List.ext_get?
    intro k
    rw [sanitize_map_get?]
    simp only [Nat.zero_add]
    rw [hget k]
    cases hgk : g.get? k with
    | none => rfl
    | some q =>
      simp only [Option.map_some']
      by_cases h1 : k < m
      · rw [if_pos h1, if_pos h1, cs_idem]
      · by_cases h2 : k = m
        · rw [if_neg h1, if_neg h1, if_pos h2, if_pos h2]
        · rw [if_neg h1, if_neg h1, if_neg h2, if_neg h2]

end FilterGraph
